import Mathlib

/-!
Verification development for the parallel test orchestrator of
`Lib/test/libregrtest` (`runtest_mp.py` and `runtest.py`).

The definitions below are a shallow embedding of the Python source:

* string helpers model Python's `str.strip`, `str.rstrip` and
  `str.rpartition("\n")` over the character list of a string;
* `decodeResult` models `json.loads` restricted to the two-element result
  records this system exchanges (`json.dumps((status, payload))` where the
  payload is a float or a string), and `encodeResultL` models `json.dumps`
  on the same records (string escaping is modelled for the escape classes
  the harness can produce: quote, backslash, newline, tab, carriage return);
* `processResult` models the part of `MultiprocessThread._runtest` that runs
  after the child process has exited (lines 125-139 of `runtest_mp.py`);
* `MultiprocessIterator.next` models `MultiprocessIterator.__next__`;
* `sysStep`/`runSystem` give a small-step interleaving semantics of the pool
  of worker threads sharing the iterator and the output queue: each step is
  one atomic action of one worker (one lock-protected pop, or one publish);
* `runtest_inner`, `run_tests_slave` model the child side (`runtest.py`
  lines 135-195 and `runtest_mp.py` lines 62-78), with the actual work of
  importing and running a test module abstracted into an `ExecEvent`;
* `drain` models the result-draining loop of `run_tests_multiprocess`
  (lines 171-224), with `queue.Queue.get` results materialised as a list of
  `ChanEvent`s.  The body of `regrtest.accumulate_result` lives in
  `main.py`, which is not part of the sources; that single append is
  modelled from the spec (see `OrchState.accumulated`).

Durations are decimal numbers (`DecNum`): a float that Python prints is
exactly a decimal numeral, so a mantissa/scale pair is a faithful carrier
for every duration value that crosses the process boundary.
-/

/-- Python whitespace predicate used by `str.strip` / `str.rstrip`
(the ASCII whitespace characters; the tests never use the exotic
Unicode ones). -/
def pyIsSpace (c : Char) : Bool :=
  c == ' ' || c == '\t' || c == '\n' || c == '\r' || c == '\x0b' || c == '\x0c'

/-- Strip leading Python whitespace from a character list (`str.lstrip`). -/
def lstripL (l : List Char) : List Char := l.dropWhile pyIsSpace

/-- Strip trailing Python whitespace from a character list (`str.rstrip`). -/
def rstripL (l : List Char) : List Char := (l.reverse.dropWhile pyIsSpace).reverse

/-- Strip whitespace from both ends (`str.strip`). -/
def stripL (l : List Char) : List Char := rstripL (lstripL l)

/-- Python `str.rstrip` on strings. -/
def pyRstrip (s : String) : String := ⟨rstripL s.data⟩

/-- Python `str.lstrip` on strings. -/
def pyLstrip (s : String) : String := ⟨lstripL s.data⟩

/-- Python `str.strip` on strings. -/
def pyStrip (s : String) : String := ⟨stripL s.data⟩

/-- Python `s.rpartition("\n")` restricted to the two components the code
uses: the part before the last newline and the part after it.  When the
string has no newline Python returns `("", "", s)`, i.e. the pair
`([], l)` here. -/
def rpartNlL (l : List Char) : List Char × List Char :=
  let r := l.reverse
  let aft := r.takeWhile (fun c => !(c == '\n'))
  match r.dropWhile (fun c => !(c == '\n')) with
  | [] => ([], l)
  | _ :: beforeR => (beforeR.reverse, aft.reverse)

/-- Line 125 of `runtest_mp.py`:
`stdout, _, result = stdout.strip().rpartition("\n")`. -/
def splitOut (stdout : String) : String × String :=
  let p := rpartNlL (stripL stdout.data)
  (⟨p.1⟩, ⟨p.2⟩)

/-- Test result constant from `runtest.py`. -/
def PASSED : Int := 1

/-- Test result constant from `runtest.py`. -/
def FAILED : Int := 0

/-- Test result constant from `runtest.py`. -/
def ENV_CHANGED : Int := -1

/-- Test result constant from `runtest.py`. -/
def SKIPPED : Int := -2

/-- Test result constant from `runtest.py`. -/
def RESOURCE_DENIED : Int := -3

/-- Test result constant from `runtest.py`. -/
def INTERRUPTED : Int := -4

/-- Test result constant from `runtest.py` (error in a child process). -/
def CHILD_ERROR : Int := -5

/-- Minimum duration of a test to display its duration or mention it is
running in background (`runtest_mp.py` line 21). -/
def PROGRESS_MIN_TIME : ℚ := 30

/-- Display the running tests if nothing happened in the last N seconds
(`runtest_mp.py` line 24). -/
def PROGRESS_UPDATE : ℚ := 30

/-- A decimal number `mant / 10 ^ scale`: the exact value of a float as
Python prints it. -/
structure DecNum where
  mant : Int
  scale : ℕ
deriving DecidableEq

/-- Rational value of a decimal number. -/
def DecNum.toRat (d : DecNum) : ℚ := (d.mant : ℚ) / ((10 : ℚ) ^ d.scale)

/-- Second component of a result record: a number (a duration) or a string
(the diagnostic of the child entry point). -/
inductive RValue
  | num (d : DecNum)
  | str (s : String)
deriving DecidableEq

/-- Whether a record payload is numeric. -/
def RValue.isNum : RValue → Bool
  | .num _ => true
  | .str _ => false

/-- Character of a single decimal digit. -/
def digChar (k : ℕ) : Char :=
  if k = 0 then '0' else if k = 1 then '1' else if k = 2 then '2'
  else if k = 3 then '3' else if k = 4 then '4' else if k = 5 then '5'
  else if k = 6 then '6' else if k = 7 then '7' else if k = 8 then '8' else '9'

/-- Decimal digits of a natural number, most significant first; fuel-driven
recursion (the fuel `n` itself always suffices). -/
def natDigitsAux : ℕ → ℕ → List Char
  | 0, _ => []
  | fuel + 1, n => if n = 0 then [] else natDigitsAux fuel (n / 10) ++ [digChar (n % 10)]

/-- Decimal numeral of a natural number (`str(n)` in Python). -/
def natDigits (n : ℕ) : List Char := if n = 0 then ['0'] else natDigitsAux n n

/-- Decimal numeral of an integer (`str(i)` / `"%s" % i` in Python). -/
def encodeInt (i : Int) : List Char :=
  (if i < 0 then ['-'] else []) ++ natDigits i.natAbs

/-- JSON escaping of one character (`json.dumps`), for the escape classes
the harness produces. -/
def escapeChar (c : Char) : List Char :=
  if c = '"' then ['\\', '"']
  else if c = '\\' then ['\\', '\\']
  else if c = '\n' then ['\\', 'n']
  else if c = '\t' then ['\\', 't']
  else if c = '\r' then ['\\', 'r']
  else [c]

/-- JSON escaping of a character list. -/
def escapeL (l : List Char) : List Char := l.flatMap escapeChar

/-- Decimal numeral of a `DecNum` (how Python prints a float: digits of
the mantissa with a decimal point inserted `scale` places from the right;
an integral value when `scale = 0`). -/
def encodeDecNumL (d : DecNum) : List Char :=
  let ds := natDigits d.mant.natAbs
  let ds := if ds.length ≤ d.scale then List.replicate (d.scale + 1 - ds.length) '0' ++ ds else ds
  let core := if d.scale = 0 then ds
    else ds.take (ds.length - d.scale) ++ '.' :: ds.drop (ds.length - d.scale)
  (if d.mant < 0 then ['-'] else []) ++ core

/-- JSON encoding of a record payload. -/
def encodeRValueL : RValue → List Char
  | .num d => encodeDecNumL d
  | .str s => '"' :: (escapeL s.data ++ ['"'])

/-- JSON encoding of a two-element result record, exactly as
`json.dumps((status, payload))` prints it: `[code, payload]` with the
separator `", "`. -/
def encodeResultL (r : Int × RValue) : List Char :=
  '[' :: (encodeInt r.1 ++ ',' :: ' ' :: (encodeRValueL r.2 ++ [']']))

/-- JSON encoding of a result record, as a string. -/
def encodeResult (r : Int × RValue) : String := ⟨encodeResultL r⟩

/-- Numeric value of a list of decimal digits. -/
def digitsVal (l : List Char) : ℕ :=
  l.foldl (fun a c => a * 10 + (c.toNat - 48)) 0

/-- Parse one or more decimal digits. -/
def parseDigits (l : List Char) : Option (ℕ × List Char) :=
  match l.takeWhile Char.isDigit with
  | [] => none
  | ds => some (digitsVal ds, l.dropWhile Char.isDigit)

/-- Parse an optionally negated integer numeral. -/
def parseInt : List Char → Option (Int × List Char)
  | '-' :: rest => (parseDigits rest).map (fun p => (-(p.1 : Int), p.2))
  | l => (parseDigits l).map (fun p => ((p.1 : Int), p.2))

/-- Parse an unsigned JSON number into a decimal number. -/
def parseUNumber (l : List Char) : Option (DecNum × List Char) :=
  match parseDigits l with
  | none => none
  | some (ip, rest) =>
    match rest with
    | '.' :: r2 =>
      match r2.takeWhile Char.isDigit with
      | [] => none
      | ds => some (⟨(ip : Int) * (10 : Int) ^ ds.length + (digitsVal ds : Int), ds.length⟩,
                    r2.dropWhile Char.isDigit)
    | _ => some (⟨(ip : Int), 0⟩, rest)

/-- Parse a JSON number (durations are non-negative in this system, so the
sign handling for fractional numbers need not distinguish `-0.x`). -/
def parseNumber : List Char → Option (RValue × List Char)
  | '-' :: rest => (parseUNumber rest).map (fun p => (.num ⟨-p.1.mant, p.1.scale⟩, p.2))
  | l => (parseUNumber l).map (fun p => (.num p.1, p.2))

/-- Inverse of `escapeChar` on the escaped letter. -/
def unescape (c : Char) : Option Char :=
  if c = '"' then some '"'
  else if c = '\\' then some '\\'
  else if c = 'n' then some '\n'
  else if c = 't' then some '\t'
  else if c = 'r' then some '\r'
  else none

/-- Parse the body of a JSON string after the opening quote; returns the
unescaped contents and the remainder after the closing quote. -/
def parseStrBody : List Char → Option (List Char × List Char)
  | [] => none
  | c :: rest =>
    if c = '"' then some ([], rest)
    else if c = '\\' then
      match rest with
      | [] => none
      | e :: rest2 =>
        match unescape e, parseStrBody rest2 with
        | some ch, some p => some (ch :: p.1, p.2)
        | _, _ => none
    else
      match parseStrBody rest with
      | some p => some (c :: p.1, p.2)
      | none => none

/-- Parse a record payload: a JSON string or a JSON number. -/
def parseRval : List Char → Option (RValue × List Char)
  | '"' :: rest => (parseStrBody rest).map (fun p => (.str ⟨p.1⟩, p.2))
  | l => parseNumber l

/-- Model of `json.loads` on the result records this system exchanges:
a two-element array `[status, payload]` as serialized by `json.dumps`. -/
def decodeResult (s : String) : Option (Int × RValue) :=
  match s.data with
  | '[' :: r1 =>
    match parseInt r1 with
    | none => none
    | some (i, r2) =>
      match r2 with
      | ',' :: ' ' :: r3 =>
        match parseRval r3 with
        | some (v, [']']) => some (i, v)
        | _ => none
      | _ => none
  | _ => none

/-- Result of `run_test_in_subprocess`: the 3-tuple
`(retcode, stdout, stderr)` of the finished child process. -/
structure ChildResult where
  retcode : Int
  stdout : String
  stderr : String
deriving DecidableEq

/-- One item put on the output queue.  `sentinel` is the synthetic
`(None, None, None, None)` record; `outcome` is a real
`(test, stdout, stderr, result)` record. -/
inductive Msg
  | sentinel
  | outcome (test : String) (out : String) (err : String) (res : Int × RValue)
deriving DecidableEq

/-- Lines 125-139 of `MultiprocessThread._runtest`: what the worker does
once the child process has exited, given the test name and the child's
`(retcode, stdout, stderr)`.  Returns the message put on the output queue
and the boolean `_runtest` returns (`true` stops the worker loop).
A result line that `json.loads` cannot parse raises in `_runtest`; `run`
catches it, puts the sentinel and lets the thread die, so its observable
effect is the same `(sentinel, stop)` pair as the empty-result branch. -/
def processResult (test : String) (cr : ChildResult) : Msg × Bool :=
  let pre := (splitOut cr.stdout).1
  let res := (splitOut cr.stdout).2
  if cr.retcode ≠ 0 then
    (Msg.outcome test (pyRstrip pre) (pyRstrip cr.stderr)
      (CHILD_ERROR, .str ("Exit code " ++ (⟨encodeInt cr.retcode⟩ : String))), true)
  else if res = "" then
    (Msg.sentinel, true)
  else
    match decodeResult res with
    | some r => (Msg.outcome test (pyRstrip pre) (pyRstrip cr.stderr) r, false)
    | none => (Msg.sentinel, true)

/-- The thread-safe iterator over tests (`MultiprocessIterator`): the
shared cursor is the remaining list, plus the `interrupted` flag. -/
structure MultiprocessIterator where
  interrupted : Bool
  tests : List String
deriving DecidableEq

/-- One lock-protected `__next__` call: `StopIteration` (modelled as
`none`) when interrupted or exhausted, otherwise the head test and the
advanced iterator. -/
def MultiprocessIterator.next (it : MultiprocessIterator) :
    Option (String × MultiprocessIterator) :=
  if it.interrupted then none
  else
    match it.tests with
    | [] => none
    | t :: rest => some (t, { it with tests := rest })

/-- Control state of one worker thread between its atomic actions:
about to pop the iterator, about to publish the result of a finished
child for test `test`, or finished (its `run` loop returned). -/
inductive WPhase
  | idle
  | publish (test : String) (cr : ChildResult)
  | stopped
deriving DecidableEq

/-- Whether a worker has finished its loop. -/
def WPhase.isStopped : WPhase → Bool
  | .stopped => true
  | _ => false

/-- State of the whole pool: the shared iterator, each worker's phase, and
the output queue contents in put order. -/
structure SysState where
  pending : MultiprocessIterator
  phases : List WPhase
  channel : List Msg
deriving DecidableEq

/-- One atomic action of worker `i`, with the child-process behaviour for
each test given by `child`.  An idle worker performs the lock-protected
pop of `_runtest` (on `StopIteration` it puts the sentinel and stops); a
worker holding a finished child publishes per `processResult`; a stopped
worker does nothing. -/
def sysStep (child : String → ChildResult) (s : SysState) (i : ℕ) : SysState :=
  match s.phases.get? i with
  | none => s
  | some .stopped => s
  | some .idle =>
    match s.pending.next with
    | none =>
      { s with phases := s.phases.set i .stopped, channel := s.channel ++ [Msg.sentinel] }
    | some (t, it) =>
      { s with pending := it, phases := s.phases.set i (.publish t (child t)) }
  | some (.publish t cr) =>
    let r := processResult t cr
    { s with phases := s.phases.set i (if r.2 then .stopped else .idle),
             channel := s.channel ++ [r.1] }

/-- Initial pool state: fresh iterator over `tests`, `n` idle workers,
empty output queue. -/
def initSys (tests : List String) (n : ℕ) : SysState :=
  { pending := ⟨false, tests⟩, phases := List.replicate n .idle, channel := [] }

/-- Run the pool under an interleaving `sched` of worker indices. -/
def runSystem (child : String → ChildResult) (tests : List String) (n : ℕ)
    (sched : List ℕ) : SysState :=
  sched.foldl (sysStep child) (initSys tests n)

/-- Whether every worker has finished its loop. -/
def allStopped (s : SysState) : Bool := s.phases.all WPhase.isStopped

/-- A child run after which the worker publishes a real outcome and keeps
looping: clean exit, parseable result line, and a verdict that does not
end the run (this is the §6 Unit Executor contract for an uninterrupted
run). -/
def wellBehaved (cr : ChildResult) : Bool :=
  cr.retcode == 0 &&
    match decodeResult (splitOut cr.stdout).2 with
    | some r => !(r.1 == INTERRUPTED) && !(r.1 == CHILD_ERROR)
    | none => false

/-- Tests currently claimed by some worker (in flight). -/
def inflight (ps : List WPhase) : List String :=
  ps.filterMap fun p => match p with | .publish t _ => some t | _ => none

/-- Test names of the outcome messages on the output queue. -/
def outcomeTests (ch : List Msg) : List String :=
  ch.filterMap fun m => match m with | .outcome t _ _ _ => some t | _ => none

/-- The `(test, result)` pairs of the outcome messages on the queue. -/
def outcomesOf (ch : List Msg) : List (String × (Int × RValue)) :=
  ch.filterMap fun m => match m with | .outcome t _ _ r => some (t, r) | _ => none

/-- Number of sentinel messages on the queue. -/
def countSent (ch : List Msg) : ℕ :=
  (ch.filterMap fun m => match m with | .sentinel => some () | _ => none).length

/-- Number of stopped workers. -/
def countStopped (ps : List WPhase) : ℕ :=
  (ps.filterMap fun p => match p with | .stopped => some () | _ => none).length

/-- A message whose processing does not end the drain loop: the sentinel,
or an outcome whose verdict is neither `INTERRUPTED` nor `CHILD_ERROR`. -/
def goodMsg : Msg → Prop
  | .sentinel => True
  | .outcome _ _ _ r => r.1 ≠ INTERRUPTED ∧ r.1 ≠ CHILD_ERROR

/-- Abstract behaviour of one in-child test execution, covering every exit
path of `runtest_inner` (`runtest.py` lines 135-195): the exceptional
paths leave `test_time` at `0.0`; a completed run reports its measured
duration and the refleak / environment-changed flags. -/
inductive ExecEvent
  | resourceDenied
  | skipTest
  | keyboardInterrupt
  | testFailed
  | otherCrash
  | completes (dur : DecNum) (refleak : Bool) (envChanged : Bool)
deriving DecidableEq

/-- Model of `runtest_inner`: returns `(status, test_time)`, or `.error ()`
when the `KeyboardInterrupt` propagates (it is re-raised, line 175). -/
def runtest_inner (ev : ExecEvent) : Except Unit (Int × DecNum) :=
  match ev with
  | .resourceDenied => .ok (RESOURCE_DENIED, ⟨0, 1⟩)
  | .skipTest => .ok (SKIPPED, ⟨0, 1⟩)
  | .keyboardInterrupt => .error ()
  | .testFailed => .ok (FAILED, ⟨0, 1⟩)
  | .otherCrash => .ok (FAILED, ⟨0, 1⟩)
  | .completes d refleak envChanged =>
    if refleak then .ok (FAILED, d)
    else if envChanged then .ok (ENV_CHANGED, d)
    else .ok (PASSED, d)

/-- What happens inside the `try` of `run_tests_slave`: either `runtest`
runs the Unit Executor (one `ExecEvent`), or some other `BaseException`
with text `msg` escapes the `runtest` call. -/
inductive SlaveEvent
  | exec (ev : ExecEvent)
  | harnessError (msg : String)
deriving DecidableEq

/-- The result tuple `run_tests_slave` serializes (lines 68-74):
the `runtest` result, `(INTERRUPTED, '')` on `KeyboardInterrupt`, or
`(CHILD_ERROR, str(e))` on any other `BaseException`. -/
def slaveResult : SlaveEvent → Int × RValue
  | .exec ev =>
    match runtest_inner ev with
    | .ok r => (r.1, .num r.2)
    | .error () => (INTERRUPTED, .str "")
  | .harnessError msg => (CHILD_ERROR, .str msg)

/-- Exit code and standard output of one child process. -/
structure SlaveRun where
  retcode : Int
  stdout : String
deriving DecidableEq

/-- Model of `run_tests_slave` (lines 62-78): whatever the run printed so
far (`priorOut`), then the forced blank line of `print()`, then the JSON
record and its newline; the process then exits with code 0. -/
def run_tests_slave (priorOut : String) (ev : SlaveEvent) : SlaveRun :=
  { retcode := 0,
    stdout := priorOut ++ "\n" ++ encodeResult (slaveResult ev) ++ "\n" }

/-- Non-authoritative per-worker progress data read by the orchestrator:
`worker.current_test` and the elapsed time since dispatch. -/
structure WorkerView where
  currentTest : Option String
  elapsed : ℚ
deriving DecidableEq

/-- Model of `get_running` (lines 160-169): the claimed test of every
worker whose dispatch has been running at least `PROGRESS_MIN_TIME`
seconds, with its elapsed time (string formatting elided: the model keeps
the `(name, seconds)` data the line is formatted from). -/
def get_running (views : List WorkerView) : List (String × ℚ) :=
  views.filterMap fun v =>
    match v.currentTest with
    | none => none
    | some t => if PROGRESS_MIN_TIME ≤ v.elapsed then some (t, v.elapsed) else none

/-- One iteration's input to the drain loop: `output.get` timed out
(`queue.Empty`), or it returned a queue item; either way the loop reads
the live worker views for `get_running`. -/
inductive ChanEvent
  | timeout (views : List WorkerView)
  | chmsg (m : Msg) (views : List WorkerView)
deriving DecidableEq

/-- One line the drain loop emits, kept structured: a `running:` liveness
line, a per-test progress line (its index, name, the duration shown only
beyond the slow-test threshold, and the `-- running:` tail), or copied
child stdout / stderr. -/
inductive OutLine
  | running (entries : List (String × ℚ))
  | progress (index : ℕ) (test : String) (shownDur : Option DecNum)
      (also : List (String × ℚ))
  | childOut (s : String)
  | childErrOut (s : String)
deriving DecidableEq

/-- Orchestrator-side state of the drain loop.  `accumulated` is the Run
Accumulator.  Modelled from the spec: `regrtest.accumulate_result` lives
in `main.py` (not among the sources); per spec §3/§4.3 it appends the
`(Unit, Outcome)` pair to the Orchestrator-owned accumulator, so it is
modelled as an append-only list of `(test, result)` pairs. -/
structure OrchState where
  accumulated : List (String × (Int × RValue))
  finished : ℕ
  testIndex : ℕ
  log : List OutLine
deriving DecidableEq

/-- Initial orchestrator state (`finished = 0`, `test_index = 1`). -/
def orchInit : OrchState := ⟨[], 0, 1, []⟩

/-- How `run_tests_multiprocess` returns: `finished st interrupted joined`
for the two paths that fall through to the join section (normal completion
and the caught `KeyboardInterrupt`, which also marks the Work Queue
interrupted), `childError` for the `Exception` raised on a `CHILD_ERROR`
result, which propagates before the join section runs (`joined = false`),
and `starved` when the modelled event list runs out while the loop would
continue (a model artifact, not a program behaviour). -/
inductive DrainOut
  | finished (st : OrchState) (interrupted : Bool) (joined : Bool)
  | childError (test : String) (diag : RValue) (st : OrchState) (joined : Bool)
  | starved (st : OrchState)
deriving DecidableEq

/-- What the `running:` liveness print of the timeout branch adds to the
output log: nothing when no worker qualifies or in PGO mode. -/
def probeLog (pgo : Bool) (views : List WorkerView) : List OutLine :=
  if (get_running views).isEmpty || pgo then [] else [.running (get_running views)]

/-- The duration shown on a completion line (lines 192-196): only for a
verdict other than `CHILD_ERROR`/`INTERRUPTED`, only beyond the slow-test
threshold, and not in PGO mode.  The short-circuit of the Python `and`
means the string payloads of the two excluded kinds are never compared
against the threshold. -/
def progressShown (pgo : Bool) (res : Int × RValue) : Option DecNum :=
  match res.2 with
  | .num d =>
    if res.1 ≠ CHILD_ERROR ∧ res.1 ≠ INTERRUPTED ∧ PROGRESS_MIN_TIME ≤ d.toRat ∧
        pgo = false then some d else none
  | .str _ => none

/-- Everything one outcome message prints (lines 190-206): the progress
line, then the child's stdout if nonempty, then its stderr if nonempty
and not in PGO mode. -/
def outcomeLog (pgo : Bool) (idx : ℕ) (t out err : String) (res : Int × RValue)
    (views : List WorkerView) : List OutLine :=
  [OutLine.progress idx t (progressShown pgo res) (get_running views)]
    ++ (if out = "" then [] else [OutLine.childOut out])
    ++ (if err = "" ∨ pgo = true then [] else [OutLine.childErrOut err])

/-- The result-draining loop of `run_tests_multiprocess` (lines 171-224).
The loop runs while `finished < useMp`.  A timeout prints the `running:`
line (if any worker qualifies and not in PGO mode) and changes nothing
else.  A sentinel increments `finished`.  An outcome is first accumulated,
then the progress line and the child's streams are printed, then
`INTERRUPTED` raises `KeyboardInterrupt` (caught: the run is marked
interrupted and the join section runs) and `CHILD_ERROR` raises an
`Exception` that skips the join section; otherwise `test_index` advances
and the loop continues. -/
def drain (useMp : ℕ) (pgo : Bool) : List ChanEvent → OrchState → DrainOut
  | [], s => if useMp ≤ s.finished then .finished s false true else .starved s
  | ev :: rest, s =>
    if useMp ≤ s.finished then .finished s false true
    else
      match ev with
      | .timeout views =>
        drain useMp pgo rest { s with log := s.log ++ probeLog pgo views }
      | .chmsg .sentinel _ =>
        drain useMp pgo rest { s with finished := s.finished + 1 }
      | .chmsg (.outcome t out err res) views =>
        let s2 : OrchState :=
          { s with accumulated := s.accumulated ++ [(t, res)],
                   log := s.log ++ outcomeLog pgo s.testIndex t out err res views }
        if res.1 = INTERRUPTED then .finished s2 true true
        else if res.1 = CHILD_ERROR then .childError t res.2 s2 false
        else drain useMp pgo rest { s2 with testIndex := s.testIndex + 1 }

/-- Child behaviour for the uninterrupted-run witness: every test exits
cleanly and reports `PASSED` after half a second. -/
def passChild : String → ChildResult :=
  fun t => ⟨0, "out " ++ t ++ "\n[1, 0.5]\n", ""⟩

/-- Child behaviour whose stdout is completely empty (e.g. killed before
writing anything) with a clean exit code. -/
def emptyChild : String → ChildResult :=
  fun _ => ⟨0, "", ""⟩

/-- Child behaviour that reports an operator interrupt: the serialized
record is `(INTERRUPTED, '')`, after the forced blank line. -/
def interruptChild : String → ChildResult :=
  fun _ => ⟨0, "\n[-4, \"\"]\n", ""⟩

/-- Invariant of the pool semantics under well-behaved children: the
iterator is never marked interrupted (no interruption occurs), every
in-flight child result is the one `child` assigns to its test, the input
tests are partitioned (as a multiset) among the iterator, the in-flight
claims and the published outcomes, sentinels on the queue match stopped
workers one for one, a worker stops only once the iterator is exhausted,
once all `n` workers have stopped the last queue message is a sentinel,
and every published outcome keeps the drain loop going. -/
structure SysInv (ts : List String) (n : ℕ) (child : String → ChildResult)
    (s : SysState) : Prop where
  plen : s.phases.length = n
  noInt : s.pending.interrupted = false
  phChild : ∀ t cr, WPhase.publish t cr ∈ s.phases → cr = child t
  perm : (s.pending.tests : Multiset String) + (inflight s.phases : Multiset String)
    + (outcomeTests s.channel : Multiset String) = (ts : Multiset String)
  sentStop : countSent s.channel = countStopped s.phases
  stopEmpty : 0 < countStopped s.phases → s.pending.tests = []
  lastSent : countStopped s.phases = n → s.channel.getLast? = some Msg.sentinel
  goodOut : ∀ m ∈ s.channel, goodMsg m

theorem dropWhile_append_of_ne_nil {α : Type} {p : α → Bool} :
    ∀ (l₁ l₂ : List α), l₁.dropWhile p ≠ [] →
      (l₁ ++ l₂).dropWhile p = l₁.dropWhile p ++ l₂ := by
  intro l₁ l₂ h
  induction l₁ with
  | nil => simp [List.dropWhile] at h
  | cons a t ih =>
    by_cases hp : p a
    · simp only [List.dropWhile_cons, hp, if_true, List.cons_append] at h ⊢
      simpa [List.dropWhile_cons, hp] using ih (by simpa [List.dropWhile_cons, hp] using h)
    · simp [List.dropWhile_cons, hp]

theorem takeWhile_append_all {α : Type} {p : α → Bool} :
    ∀ (l₁ l₂ : List α), (∀ x ∈ l₁, p x = true) →
      (l₁ ++ l₂).takeWhile p = l₁ ++ l₂.takeWhile p := by
  intro l₁ l₂ h
  induction l₁ with
  | nil => simp
  | cons a t ih =>
    have ha : p a = true := h a (by simp)
    simp only [List.cons_append, List.takeWhile_cons, ha, if_true]
    rw [ih (fun x hx => h x (by simp [hx]))]

theorem dropWhile_append_all {α : Type} {p : α → Bool} :
    ∀ (l₁ l₂ : List α), (∀ x ∈ l₁, p x = true) →
      (l₁ ++ l₂).dropWhile p = l₂.dropWhile p := by
  intro l₁ l₂ h
  induction l₁ with
  | nil => simp
  | cons a t ih =>
    have ha : p a = true := h a (by simp)
    simp only [List.cons_append, List.dropWhile_cons, ha, if_true]
    exact ih (fun x hx => h x (by simp [hx]))

theorem rstripL_append (a b : List Char) (h : rstripL b ≠ []) :
    rstripL (a ++ b) = a ++ rstripL b := by
  have hb : b.reverse.dropWhile pyIsSpace ≠ [] := by
    intro hc; exact h (by simp [rstripL, hc])
  simp only [rstripL, List.reverse_append]
  rw [dropWhile_append_of_ne_nil _ _ hb, List.reverse_append, List.reverse_reverse]

theorem rstripL_concat_nonspace (l : List Char) (c : Char) (h : pyIsSpace c = false) :
    rstripL (l ++ [c]) = l ++ [c] := by
  simp [rstripL, List.dropWhile_cons, h]

theorem lstripL_append_of_nil (a b : List Char) (h : lstripL a = []) :
    lstripL (a ++ b) = lstripL b := by
  have := List.dropWhile_eq_nil_iff.mp h
  exact dropWhile_append_all a b this

theorem lstripL_append_of_ne_nil (a b : List Char) (h : lstripL a ≠ []) :
    lstripL (a ++ b) = lstripL a ++ b := by
  exact dropWhile_append_of_ne_nil a b h

theorem rpartNlL_append (a b : List Char) (h : '\n' ∉ b) :
    rpartNlL (a ++ '\n' :: b) = (a, b) := by
  have hall : ∀ x ∈ b.reverse, (!(x == '\n')) = true := by
    intro x hx
    have : x ∈ b := List.mem_reverse.mp hx
    simp only [Bool.not_eq_true']
    exact beq_false_of_ne (fun hc => h (hc ▸ this))
  have hrev : (a ++ '\n' :: b).reverse = b.reverse ++ '\n' :: a.reverse := by
    simp [List.reverse_append]
  simp only [rpartNlL, hrev]
  rw [takeWhile_append_all _ _ hall, dropWhile_append_all _ _ hall]
  simp [List.takeWhile_cons, List.dropWhile_cons]

theorem rpartNlL_no_nl (l : List Char) (h : '\n' ∉ l) : rpartNlL l = ([], l) := by
  have hall : ∀ x ∈ l.reverse, (!(x == '\n')) = true := by
    intro x hx
    have : x ∈ l := List.mem_reverse.mp hx
    simp only [Bool.not_eq_true']
    exact beq_false_of_ne (fun hc => h (hc ▸ this))
  have hd : l.reverse.dropWhile (fun c => !(c == '\n')) = [] :=
    List.dropWhile_eq_nil_iff.mpr hall
  simp [rpartNlL, hd]

theorem getLast?_append_singleton {α : Type} (l : List α) (x : α) :
    (l ++ [x]).getLast? = some x := by
  exact List.getLast?_concat l

theorem getLast?_cons_of_ne_nil {α : Type} (a : α) (l : List α) (h : l ≠ []) :
    (a :: l).getLast? = l.getLast? := by
  cases l with
  | nil => exact absurd rfl h
  | cons b t => simp [List.getLast?_cons_cons]

theorem mem_of_getLast?_eq_some {α : Type} :
    ∀ (l : List α) (x : α), l.getLast? = some x → x ∈ l := by
  intro l
  induction l with
  | nil => intro x hx; simp at hx
  | cons a t ih =>
    intro x hx
    cases t with
    | nil => simp_all
    | cons b u =>
      rw [List.getLast?_cons_cons] at hx
      exact List.mem_cons_of_mem _ (ih x hx)

theorem filterMap_cons_toList {α β : Type} (f : α → Option β) (x : α) (l : List α) :
    (x :: l).filterMap f = (f x).toList ++ l.filterMap f := by
  cases h : f x <;> simp [List.filterMap_cons, h]

theorem filterMap_set_perm {α β : Type} (f : α → Option β) :
    ∀ (l : List α) (i : ℕ) (p q : α), l.get? i = some p →
      ((f p).toList ++ (l.set i q).filterMap f).Perm ((f q).toList ++ l.filterMap f) := by
  intro l
  induction l with
  | nil => intro i p q h; simp at h
  | cons a t ih =>
    intro i p q h
    cases i with
    | zero =>
      simp only [List.get?] at h
      injection h with h; subst h
      rw [List.set_cons_zero, filterMap_cons_toList, filterMap_cons_toList,
        ← List.append_assoc, ← List.append_assoc]
      exact (List.perm_append_comm).append_right _
    | succ i =>
      simp only [List.get?] at h
      rw [List.set_cons_succ, filterMap_cons_toList, filterMap_cons_toList]
      have hmid := ((ih i p q h).append_left ((f a).toList))
      refine List.Perm.trans ?_ (List.Perm.trans hmid ?_)
      · rw [← List.append_assoc, ← List.append_assoc]
        exact (List.perm_append_comm).append_right _
      · rw [← List.append_assoc, ← List.append_assoc]
        exact (List.perm_append_comm).append_right _

theorem length_filterMap_eq_all_isSome {α β : Type} (f : α → Option β) :
    ∀ (l : List α), (l.filterMap f).length = l.length → ∀ x ∈ l, (f x).isSome := by
  intro l
  induction l with
  | nil => intro _ x hx; simp at hx
  | cons a t ih =>
    intro h x hx
    cases ha : f a with
    | none =>
      exfalso
      rw [filterMap_cons_toList, ha] at h
      simp only [Option.toList_none, List.nil_append, List.length_cons] at h
      have := List.length_filterMap_le f t
      omega
    | some b =>
      rcases List.mem_cons.mp hx with rfl | hxt
      · simp [ha]
      · rw [filterMap_cons_toList, ha] at h
        simp only [Option.toList_some, List.singleton_append, List.length_cons,
          Nat.succ.injEq] at h
        exact ih h x hxt

theorem countSent_append (ch l : List Msg) :
    countSent (ch ++ l) = countSent ch + countSent l := by
  simp [countSent, List.filterMap_append]

theorem outcomeTests_append (ch l : List Msg) :
    outcomeTests (ch ++ l) = outcomeTests ch ++ outcomeTests l := by
  simp [outcomeTests, List.filterMap_append]

theorem outcomesOf_append (ch l : List Msg) :
    outcomesOf (ch ++ l) = outcomesOf ch ++ outcomesOf l := by
  simp [outcomesOf, List.filterMap_append]

theorem outcomesOf_map_fst (ch : List Msg) :
    (outcomesOf ch).map Prod.fst = outcomeTests ch := by
  induction ch with
  | nil => rfl
  | cons m t ih => cases m <;> simp [outcomesOf, outcomeTests, List.filterMap_cons, ih] <;>
      simpa [outcomesOf, outcomeTests] using ih

theorem decodeResult_empty : decodeResult "" = none := rfl

theorem processResult_of_wellBehaved (t : String) (cr : ChildResult)
    (h : wellBehaved cr = true) :
    ∃ r, decodeResult (splitOut cr.stdout).2 = some r ∧
      r.1 ≠ INTERRUPTED ∧ r.1 ≠ CHILD_ERROR ∧
      processResult t cr =
        (Msg.outcome t (pyRstrip (splitOut cr.stdout).1) (pyRstrip cr.stderr) r, false) := by
  rw [wellBehaved, Bool.and_eq_true] at h
  obtain ⟨hret, hrest⟩ := h
  have hret0 : cr.retcode = 0 := beq_iff_eq.mp hret
  cases hd : decodeResult (splitOut cr.stdout).2 with
  | none => rw [hd] at hrest; exact absurd hrest (by simp)
  | some r =>
    rw [hd, Bool.and_eq_true] at hrest
    obtain ⟨h1, h2⟩ := hrest
    have hI : r.1 ≠ INTERRUPTED := by
      intro hc; rw [hc] at h1; simp at h1
    have hC : r.1 ≠ CHILD_ERROR := by
      intro hc; rw [hc] at h2; simp at h2
    refine ⟨r, rfl, hI, hC, ?_⟩
    have hne : (splitOut cr.stdout).2 ≠ "" := by
      intro hc; rw [hc, decodeResult_empty] at hd; exact Option.noConfusion hd
    simp [processResult, hret0, hne, hd]

theorem inflight_set_idle_publish (ps : List WPhase) (i : ℕ) (t : String)
    (cr : ChildResult) (h : ps.get? i = some .idle) :
    (inflight (ps.set i (.publish t cr)) : Multiset String)
      = {t} + (inflight ps : Multiset String) := by
  have := filterMap_set_perm
    (fun p => match p with | WPhase.publish t _ => some t | _ => none)
    ps i .idle (.publish t cr) h
  simp only [Option.toList] at this
  have hp : (inflight (ps.set i (.publish t cr))).Perm (t :: inflight ps) := by
    simpa [inflight] using this
  refine (Multiset.coe_eq_coe.mpr hp).trans ?_
  rw [← Multiset.cons_coe, Multiset.singleton_add]

theorem inflight_set_idle_stopped (ps : List WPhase) (i : ℕ)
    (h : ps.get? i = some .idle) :
    (inflight (ps.set i .stopped) : Multiset String) = (inflight ps : Multiset String) := by
  have := filterMap_set_perm
    (fun p => match p with | WPhase.publish t _ => some t | _ => none)
    ps i .idle .stopped h
  simp only [Option.toList] at this
  exact Multiset.coe_eq_coe.mpr (by simpa [inflight] using this)

theorem inflight_set_publish_idle (ps : List WPhase) (i : ℕ) (t : String)
    (cr : ChildResult) (h : ps.get? i = some (.publish t cr)) :
    (inflight ps : Multiset String)
      = {t} + (inflight (ps.set i .idle) : Multiset String) := by
  have := filterMap_set_perm
    (fun p => match p with | WPhase.publish t _ => some t | _ => none)
    ps i (.publish t cr) .idle h
  simp only [Option.toList] at this
  have hp : (t :: inflight (ps.set i .idle)).Perm (inflight ps) := by
    simpa [inflight] using this
  refine ((Multiset.coe_eq_coe.mpr hp).symm).trans ?_
  rw [← Multiset.cons_coe, Multiset.singleton_add]

theorem countStopped_set_idle_stopped (ps : List WPhase) (i : ℕ)
    (h : ps.get? i = some .idle) :
    countStopped (ps.set i .stopped) = countStopped ps + 1 := by
  have := filterMap_set_perm
    (fun p => match p with | WPhase.stopped => some () | _ => none)
    ps i .idle .stopped h
  simp only [Option.toList] at this
  have := this.length_eq
  simpa [countStopped, Nat.add_comm] using this

theorem countStopped_set_idle_publish (ps : List WPhase) (i : ℕ) (t : String)
    (cr : ChildResult) (h : ps.get? i = some .idle) :
    countStopped (ps.set i (.publish t cr)) = countStopped ps := by
  have := filterMap_set_perm
    (fun p => match p with | WPhase.stopped => some () | _ => none)
    ps i .idle (.publish t cr) h
  simp only [Option.toList] at this
  have := this.length_eq
  simpa [countStopped] using this

theorem countStopped_set_publish_idle (ps : List WPhase) (i : ℕ) (t : String)
    (cr : ChildResult) (h : ps.get? i = some (.publish t cr)) :
    countStopped (ps.set i .idle) = countStopped ps := by
  have := filterMap_set_perm
    (fun p => match p with | WPhase.stopped => some () | _ => none)
    ps i (.publish t cr) .idle h
  simp only [Option.toList] at this
  have := this.length_eq
  simpa [countStopped] using this

theorem inflight_replicate_idle (n : ℕ) : inflight (List.replicate n .idle) = [] := by
  induction n with
  | zero => rfl
  | succ k ih => simpa [inflight, List.replicate_succ, List.filterMap_cons] using ih

theorem countStopped_replicate_idle (n : ℕ) : countStopped (List.replicate n .idle) = 0 := by
  induction n with
  | zero => rfl
  | succ k ih => simpa [countStopped, List.replicate_succ, List.filterMap_cons] using ih

theorem inflight_nil_of_all_stopped (ps : List WPhase)
    (h : ps.all WPhase.isStopped = true) : inflight ps = [] := by
  induction ps with
  | nil => rfl
  | cons p t ih =>
    rw [List.all_cons, Bool.and_eq_true] at h
    cases p with
    | stopped => simpa [inflight, List.filterMap_cons] using ih h.2
    | idle => simp [WPhase.isStopped] at h
    | publish a b => simp [WPhase.isStopped] at h

theorem countStopped_of_all_stopped (ps : List WPhase)
    (h : ps.all WPhase.isStopped = true) : countStopped ps = ps.length := by
  induction ps with
  | nil => rfl
  | cons p t ih =>
    rw [List.all_cons, Bool.and_eq_true] at h
    cases p with
    | stopped =>
      simpa [countStopped, List.filterMap_cons] using ih h.2
    | idle => simp [WPhase.isStopped] at h
    | publish a b => simp [WPhase.isStopped] at h

theorem countSent_pos_of_mem (msgs : List Msg) (h : Msg.sentinel ∈ msgs) :
    0 < countSent msgs := by
  rw [countSent, List.length_pos]
  intro hc
  rw [List.filterMap_eq_nil_iff] at hc
  have := hc Msg.sentinel h
  simp at this

theorem inv_init (ts : List String) (n : ℕ) (child : String → ChildResult)
    (hn : 0 < n) : SysInv ts n child (initSys ts n) := by
  refine ⟨?_, rfl, ?_, ?_, ?_, ?_, ?_, ?_⟩
  · simp [initSys]
  · intro t cr hmem
    simp [initSys, List.mem_replicate] at hmem
  · simp [initSys, inflight_replicate_idle, outcomeTests]
  · simp [initSys, countSent, countStopped_replicate_idle]
  · intro hpos
    rw [initSys] at hpos
    simp only [countStopped_replicate_idle] at hpos
    omega
  · intro hzero
    rw [initSys] at hzero
    simp only [countStopped_replicate_idle] at hzero
    omega
  · intro m hm
    simp [initSys] at hm

theorem inv_step (ts : List String) (n : ℕ) (child : String → ChildResult)
    (hw : ∀ t ∈ ts, wellBehaved (child t) = true)
    (s : SysState) (i : ℕ) (h : SysInv ts n child s) :
    SysInv ts n child (sysStep child s i) := by
  rcases hg : s.phases.get? i with _ | ph
  · simpa only [sysStep, hg] using h
  cases ph with
  | stopped => simpa only [sysStep, hg] using h
  | idle =>
    rcases hnx : s.pending.next with _ | p
    · -- StopIteration: the worker puts the sentinel and stops.
      have htests : s.pending.tests = [] := by
        rcases hts : s.pending.tests with _ | ⟨a, r⟩
        · rfl
        · exfalso
          rw [MultiprocessIterator.next, h.noInt] at hnx
          simp [hts] at hnx
      have hstep : sysStep child s i =
          { s with phases := s.phases.set i .stopped,
                   channel := s.channel ++ [Msg.sentinel] } := by
        simp only [sysStep, hg, hnx]
      rw [hstep]
      refine ⟨?_, h.noInt, ?_, ?_, ?_, ?_, ?_, ?_⟩
      · simpa using h.plen
      · intro t cr hmem
        simp only at hmem
        rcases List.mem_or_eq_of_mem_set hmem with hold | hnew
        · exact h.phChild t cr hold
        · exact absurd hnew (by simp)
      · simp only [outcomeTests_append]
        have : outcomeTests [Msg.sentinel] = [] := rfl
        rw [this, List.append_nil, inflight_set_idle_stopped _ _ hg]
        exact h.perm
      · simp only [countSent_append, countStopped_set_idle_stopped _ _ hg]
        have : countSent [Msg.sentinel] = 1 := rfl
        rw [this, h.sentStop]
      · intro _; exact htests
      · intro _
        exact getLast?_append_singleton _ _
      · intro m hm
        rcases List.mem_append.mp hm with hold | hnew
        · exact h.goodOut m hold
        · rw [List.mem_singleton.mp hnew]; trivial
    · -- A test is claimed: the worker moves to the publish phase.
      obtain ⟨t, it⟩ := p
      have hinfo : s.pending.tests = t :: it.tests ∧ it.interrupted = false := by
        rcases hts : s.pending.tests with _ | ⟨a, r⟩
        · exfalso
          rw [MultiprocessIterator.next, h.noInt] at hnx
          simp [hts] at hnx
        · rw [MultiprocessIterator.next, h.noInt] at hnx
          rw [hts] at hnx
          simp only [Bool.false_eq_true, if_false] at hnx
          injection hnx with hnx
          injection hnx with h1 h2
          subst h1
          rw [← h2]
          exact ⟨rfl, rfl⟩
      have hstep : sysStep child s i =
          { s with pending := it,
                   phases := s.phases.set i (.publish t (child t)) } := by
        simp only [sysStep, hg, hnx]
      rw [hstep]
      refine ⟨?_, hinfo.2, ?_, ?_, ?_, ?_, ?_, ?_⟩
      · simpa using h.plen
      · intro t' cr' hmem
        simp only at hmem
        rcases List.mem_or_eq_of_mem_set hmem with hold | hnew
        · exact h.phChild t' cr' hold
        · injection hnew with e1 e2
          rw [e1]
          exact e2
      · simp only
        rw [inflight_set_idle_publish _ _ _ _ hg]
        have hp := h.perm
        rw [hinfo.1, ← Multiset.cons_coe, ← Multiset.singleton_add] at hp
        rw [← hp]
        abel
      · simp only [countStopped_set_idle_publish _ _ _ _ hg]
        exact h.sentStop
      · intro hpos
        simp only [countStopped_set_idle_publish _ _ _ _ hg] at hpos
        exact absurd (h.stopEmpty hpos) (by rw [hinfo.1]; simp)
      · intro hcs
        simp only [countStopped_set_idle_publish _ _ _ _ hg] at hcs
        exfalso
        have h1 : countStopped s.phases = s.phases.length := by rw [hcs, h.plen]
        have h2 := length_filterMap_eq_all_isSome _ _ h1 _ (List.get?_mem hg)
        simp at h2
      · exact h.goodOut
  | publish t cr =>
    have hcr : cr = child t := h.phChild t cr (List.get?_mem hg)
    have htin : t ∈ ts := by
      have hmem : t ∈ inflight s.phases :=
        List.mem_filterMap.mpr ⟨.publish t cr, List.get?_mem hg, rfl⟩
      have : t ∈ (ts : Multiset String) := by
        rw [← h.perm]
        simp [hmem]
      simpa using this
    have hwb : wellBehaved cr = true := by rw [hcr]; exact hw t htin
    obtain ⟨r, hd, hI, hC, hpr⟩ := processResult_of_wellBehaved t cr hwb
    have hstep : sysStep child s i =
        { s with phases := s.phases.set i .idle,
                 channel := s.channel ++
                   [Msg.outcome t (pyRstrip (splitOut cr.stdout).1)
                     (pyRstrip cr.stderr) r] } := by
      simp only [sysStep, hg, hpr, Bool.false_eq_true, if_false]
    rw [hstep]
    refine ⟨?_, h.noInt, ?_, ?_, ?_, ?_, ?_, ?_⟩
    · simpa using h.plen
    · intro t' cr' hmem
      simp only at hmem
      rcases List.mem_or_eq_of_mem_set hmem with hold | hnew
      · exact h.phChild t' cr' hold
      · exact absurd hnew (by simp)
    · simp only [outcomeTests_append]
      have hsing : outcomeTests
          [Msg.outcome t (pyRstrip (splitOut cr.stdout).1) (pyRstrip cr.stderr) r]
          = [t] := rfl
      rw [hsing]
      have hp := h.perm
      rw [inflight_set_publish_idle _ _ _ _ hg] at hp
      rw [← hp, ← Multiset.coe_add, Multiset.coe_singleton]
      abel
    · simp only [countSent_append, countStopped_set_publish_idle _ _ _ _ hg]
      have : countSent
          [Msg.outcome t (pyRstrip (splitOut cr.stdout).1) (pyRstrip cr.stderr) r]
          = 0 := rfl
      rw [this, Nat.add_zero, h.sentStop]
    · intro hpos
      simp only [countStopped_set_publish_idle _ _ _ _ hg] at hpos
      exact h.stopEmpty hpos
    · intro hcs
      simp only [countStopped_set_publish_idle _ _ _ _ hg] at hcs
      exfalso
      have h1 : countStopped s.phases = s.phases.length := by rw [hcs, h.plen]
      have h2 := length_filterMap_eq_all_isSome _ _ h1 _ (List.get?_mem hg)
      simp at h2
    · intro m hm
      rcases List.mem_append.mp hm with hold | hnew
      · exact h.goodOut m hold
      · rw [List.mem_singleton.mp hnew]
        exact ⟨hI, hC⟩

theorem drain_timeout_step (useMp : ℕ) (pgo : Bool) (views : List WorkerView)
    (rest : List ChanEvent) (s : OrchState) (hlt : s.finished < useMp) :
    drain useMp pgo (ChanEvent.timeout views :: rest) s
      = drain useMp pgo rest { s with log := s.log ++ probeLog pgo views } := by
  rw [drain, if_neg (Nat.not_le.mpr hlt)]

theorem drain_sentinel_step (useMp : ℕ) (pgo : Bool) (views : List WorkerView)
    (rest : List ChanEvent) (s : OrchState) (hlt : s.finished < useMp) :
    drain useMp pgo (ChanEvent.chmsg Msg.sentinel views :: rest) s
      = drain useMp pgo rest { s with finished := s.finished + 1 } := by
  rw [drain, if_neg (Nat.not_le.mpr hlt)]

theorem drain_outcome_step (useMp : ℕ) (pgo : Bool) (t out err : String)
    (res : Int × RValue) (views : List WorkerView) (rest : List ChanEvent)
    (s : OrchState) (hlt : s.finished < useMp)
    (hI : res.1 ≠ INTERRUPTED) (hC : res.1 ≠ CHILD_ERROR) :
    drain useMp pgo (ChanEvent.chmsg (Msg.outcome t out err res) views :: rest) s
      = drain useMp pgo rest
          { s with accumulated := s.accumulated ++ [(t, res)],
                   testIndex := s.testIndex + 1,
                   log := s.log ++ outcomeLog pgo s.testIndex t out err res views } := by
  rw [drain, if_neg (Nat.not_le.mpr hlt)]
  simp only [hI, hC, if_neg, if_false]

theorem drain_outcome_childError (useMp : ℕ) (pgo : Bool) (t out err : String)
    (res : Int × RValue) (views : List WorkerView) (rest : List ChanEvent)
    (s : OrchState) (hlt : s.finished < useMp) (hC : res.1 = CHILD_ERROR) :
    drain useMp pgo (ChanEvent.chmsg (Msg.outcome t out err res) views :: rest) s
      = DrainOut.childError t res.2
          { s with accumulated := s.accumulated ++ [(t, res)],
                   log := s.log ++ outcomeLog pgo s.testIndex t out err res views }
          false := by
  have hI : res.1 ≠ INTERRUPTED := by
    rw [hC]; simp [CHILD_ERROR, INTERRUPTED]
  rw [drain, if_neg (Nat.not_le.mpr hlt)]
  rw [if_neg hI, if_pos hC]

theorem drain_outcome_interrupted (useMp : ℕ) (pgo : Bool) (t out err : String)
    (res : Int × RValue) (views : List WorkerView) (rest : List ChanEvent)
    (s : OrchState) (hlt : s.finished < useMp) (hI : res.1 = INTERRUPTED) :
    drain useMp pgo (ChanEvent.chmsg (Msg.outcome t out err res) views :: rest) s
      = DrainOut.finished
          { s with accumulated := s.accumulated ++ [(t, res)],
                   log := s.log ++ outcomeLog pgo s.testIndex t out err res views }
          true true := by
  rw [drain, if_neg (Nat.not_le.mpr hlt)]
  simp only [hI, if_pos]

theorem inv_run (ts : List String) (n : ℕ) (child : String → ChildResult)
    (hw : ∀ t ∈ ts, wellBehaved (child t) = true) (hn : 0 < n)
    (sched : List ℕ) : SysInv ts n child (runSystem child ts n sched) := by
  rw [runSystem]
  have hstep : ∀ (sch : List ℕ) (s : SysState), SysInv ts n child s →
      SysInv ts n child (sch.foldl (sysStep child) s) := by
    intro sch
    induction sch with
    | nil => intro s hs; exact hs
    | cons i rest ih =>
      intro s hs
      exact ih _ (inv_step ts n child hw s i hs)
  exact hstep sched _ (inv_init ts n child hn)

theorem countSent_cons_sentinel (rest : List Msg) :
    countSent (Msg.sentinel :: rest) = countSent rest + 1 := by
  simp [countSent, List.filterMap_cons]

theorem countSent_cons_outcome (t out err : String) (res : Int × RValue)
    (rest : List Msg) :
    countSent (Msg.outcome t out err res :: rest) = countSent rest := by
  simp [countSent, List.filterMap_cons]

theorem drain_processes (useMp : ℕ) (pgo : Bool) :
    ∀ (msgs : List Msg) (s : OrchState),
      (∀ m ∈ msgs, goodMsg m) →
      s.finished + countSent msgs = useMp →
      (msgs = [] ∨ msgs.getLast? = some Msg.sentinel) →
      ∃ st', drain useMp pgo (msgs.map (fun m => ChanEvent.chmsg m [])) s
          = .finished st' false true
        ∧ st'.accumulated = s.accumulated ++ outcomesOf msgs := by
  intro msgs
  induction msgs with
  | nil =>
    intro s hg hc _
    have hle : useMp ≤ s.finished := by
      simp only [countSent, List.filterMap_nil, List.length_nil] at hc
      omega
    refine ⟨s, ?_, by simp [outcomesOf]⟩
    simp [drain, hle]
  | cons m rest ih =>
    intro s hg hc hl
    have hlast : (m :: rest).getLast? = some Msg.sentinel := by
      rcases hl with h | h
      · exact absurd h (by simp)
      · exact h
    have hsentmem : Msg.sentinel ∈ m :: rest :=
      mem_of_getLast?_eq_some _ _ hlast
    have hpos : 0 < countSent (m :: rest) := countSent_pos_of_mem _ hsentmem
    have hlt : s.finished < useMp := by omega
    have hlrest : rest = [] ∨ rest.getLast? = some Msg.sentinel := by
      rcases hre : rest with _ | ⟨m2, rest2⟩
      · exact Or.inl rfl
      · right
        rw [← hre]
        rw [← getLast?_cons_of_ne_nil m rest (by rw [hre]; simp)]
        exact hlast
    cases m with
    | sentinel =>
      rw [List.map_cons, drain_sentinel_step useMp pgo [] _ s hlt]
      have hc' : ({ s with finished := s.finished + 1 } : OrchState).finished
          + countSent rest = useMp := by
        rw [countSent_cons_sentinel] at hc
        simp only
        omega
      obtain ⟨st', h1, h2⟩ := ih { s with finished := s.finished + 1 }
        (fun m hm => hg m (List.mem_cons_of_mem _ hm)) hc' hlrest
      refine ⟨st', h1, ?_⟩
      rw [h2]
      simp [outcomesOf, List.filterMap_cons]
    | outcome t out err res =>
      obtain ⟨hI, hC⟩ : goodMsg (Msg.outcome t out err res) := hg _ (by simp)
      rw [List.map_cons, drain_outcome_step useMp pgo t out err res [] _ s hlt hI hC]
      obtain ⟨st', h1, h2⟩ := ih
        { s with accumulated := s.accumulated ++ [(t, res)],
                 testIndex := s.testIndex + 1,
                 log := s.log ++ outcomeLog pgo s.testIndex t out err res [] }
        (fun m hm => hg m (List.mem_cons_of_mem _ hm))
        (by rw [countSent_cons_outcome] at hc; simpa using hc) hlrest
      refine ⟨st', h1, ?_⟩
      rw [h2]
      simp [outcomesOf, List.filterMap_cons]

/-- C1: for every Unit list and pool size `0 < n ≤ k`, under any
interleaving of the workers' atomic queue/publish actions, when no
interruption occurs and every child satisfies the Unit Executor contract
(clean exit, parseable non-run-ending verdict), once all workers have
quiesced the drain loop records exactly `k` Outcomes in the Run
Accumulator and the multiset of Unit names across the recorded Outcomes
equals the input list: no Unit is duplicated and none is lost.  The
single-claim property is what the lock-protected pop gives: each `next`
removes the Unit from the shared cursor, so no interleaving hands it to a
second Worker. -/
theorem c1_queue_no_dup_no_loss (ts : List String) (n : ℕ)
    (child : String → ChildResult) (sched : List ℕ) (pgo : Bool)
    (hn : 0 < n) (hk : n ≤ ts.length)
    (hw : ∀ t ∈ ts, wellBehaved (child t) = true)
    (hstop : allStopped (runSystem child ts n sched) = true) :
    ∃ st', drain n pgo
        ((runSystem child ts n sched).channel.map (fun m => ChanEvent.chmsg m []))
        orchInit = .finished st' false true
      ∧ (st'.accumulated.map Prod.fst).Perm ts
      ∧ st'.accumulated.length = ts.length := by
  have hinv := inv_run ts n child hw hn sched
  set st := runSystem child ts n sched
  have hall : st.phases.all WPhase.isStopped = true := hstop
  have hcs : countStopped st.phases = n := by
    rw [countStopped_of_all_stopped _ hall, hinv.plen]
  have hinfl : inflight st.phases = [] := inflight_nil_of_all_stopped _ hall
  have htests : st.pending.tests = [] := hinv.stopEmpty (by omega)
  have hlast : st.channel.getLast? = some Msg.sentinel := hinv.lastSent hcs
  have hsent : countSent st.channel = n := by rw [hinv.sentStop, hcs]
  have hperm : (outcomeTests st.channel : Multiset String) = (ts : Multiset String) := by
    have hp := hinv.perm
    rw [htests, hinfl] at hp
    simpa using hp
  obtain ⟨st', h1, h2⟩ := drain_processes n pgo st.channel orchInit hinv.goodOut
    (by rw [hsent]; exact Nat.zero_add n)
    (Or.inr hlast)
  refine ⟨st', h1, ?_, ?_⟩
  · rw [h2]
    simp only [orchInit, List.nil_append]
    rw [outcomesOf_map_fst]
    exact Multiset.coe_eq_coe.mp hperm
  · rw [h2]
    simp only [orchInit, List.nil_append]
    have hlen : ((outcomesOf st.channel).map Prod.fst).length = ts.length := by
      rw [outcomesOf_map_fst]
      exact (Multiset.coe_eq_coe.mp hperm).length_eq
    simpa using hlen

/-- Witness for C1: three Units, two Workers, a concrete interleaving in
which the two Workers overlap; all hypotheses hold by evaluation and the
conclusion is obtained by applying the theorem. -/
theorem c1_queue_no_dup_no_loss_witness :
    ((0 : ℕ) < 2 ∧ 2 ≤ (["a", "b", "c"] : List String).length
      ∧ (∀ t ∈ (["a", "b", "c"] : List String), wellBehaved (passChild t) = true)
      ∧ allStopped (runSystem passChild ["a", "b", "c"] 2 [0, 1, 0, 1, 0, 1, 0, 0]) = true)
    ∧ ∃ st', drain 2 false
        ((runSystem passChild ["a", "b", "c"] 2 [0, 1, 0, 1, 0, 1, 0, 0]).channel.map
          (fun m => ChanEvent.chmsg m []))
        orchInit = .finished st' false true
      ∧ (st'.accumulated.map Prod.fst).Perm ["a", "b", "c"]
      ∧ st'.accumulated.length = (["a", "b", "c"] : List String).length :=
  ⟨⟨by decide, by decide, by decide, by decide⟩,
    c1_queue_no_dup_no_loss ["a", "b", "c"] 2 passChild [0, 1, 0, 1, 0, 1, 0, 0] false
      (by decide) (by decide) (by decide) (by decide)⟩

/-- Counterexample for C2: with exit code 1 and stdout `"hello\nworld"`,
the published diagnostic is `"Exit code 1"` (capital E), not
`"exit code 1"`, and the published stdout is `"hello"`: the final line of
the captured stdout has been consumed by the result split, so the full
captured stdout is not published. -/
theorem c2_exit_code_counterexample :
    processResult "t" ⟨1, "hello\nworld", "e"⟩
      = (Msg.outcome "t" "hello" "e" (CHILD_ERROR, .str "Exit code 1"), true)
    ∧ ("Exit code 1" : String) ≠ "exit code 1"
    ∧ ("hello" : String) ≠ "hello\nworld" := by decide

/-- C2 (amended): for every child with nonzero exit code, regardless of
its stdout (including empty stdout), the Worker publishes CHILD_ERROR —
never FAILED — with diagnostic `"Exit code N"` (capital E), and the
record published with it carries the captured stderr (right-stripped) and
the captured stdout with its final line removed by the result split. -/
theorem c2_nonzero_exit_is_child_error (t : String) (cr : ChildResult)
    (h : cr.retcode ≠ 0) :
    processResult t cr
      = (Msg.outcome t (pyRstrip (splitOut cr.stdout).1) (pyRstrip cr.stderr)
          (CHILD_ERROR, .str ("Exit code " ++ (⟨encodeInt cr.retcode⟩ : String))), true)
    ∧ CHILD_ERROR ≠ FAILED := by
  refine ⟨?_, by decide⟩
  simp [processResult, h]

/-- Witness for C2 at exit code 2 with multi-line stdout. -/
theorem c2_nonzero_exit_is_child_error_witness :
    ((2 : Int) ≠ 0)
    ∧ (processResult "t" ⟨2, "x\ny", "z"⟩
        = (Msg.outcome "t" "x" "z" (CHILD_ERROR, .str "Exit code 2"), true)
      ∧ CHILD_ERROR ≠ FAILED) :=
  ⟨by decide, c2_nonzero_exit_is_child_error "t" ⟨2, "x\ny", "z"⟩ (by decide)⟩

/-- Counterexample for C3: one Worker, Units `["a", "b"]`, the child for
`"a"` exits 0 with empty stdout.  After the two worker steps the Worker
has stopped (its `_runtest` returned `True`), the queue holds only the
sentinel, and `"b"` is still in the Work Queue, never claimed — the
Worker did not ask for the next Unit. -/
theorem c3_no_result_counterexample :
    runSystem emptyChild ["a", "b"] 1 [0, 0]
      = ⟨⟨false, ["b"]⟩, [.stopped], [Msg.sentinel]⟩
    ∧ (processResult "a" (emptyChild "a")).2 = true := by decide

/-- C3 (amended): a child that exits 0 with no structured record (empty
result part) makes the Worker put the synthetic sentinel and stop its
loop (`_runtest` returns `True`); the sentinel only increments the
orchestrator's finished-slot counter — the Run Accumulator and the test
index are untouched — and the Worker claims no further Unit. -/
theorem c3_no_result_sentinel_and_stop (t : String) (cr : ChildResult)
    (useMp : ℕ) (pgo : Bool) (views : List WorkerView) (rest : List ChanEvent)
    (s : OrchState) (h0 : cr.retcode = 0) (hres : (splitOut cr.stdout).2 = "")
    (hlt : s.finished < useMp) :
    processResult t cr = (Msg.sentinel, true)
    ∧ drain useMp pgo (ChanEvent.chmsg Msg.sentinel views :: rest) s
        = drain useMp pgo rest { s with finished := s.finished + 1 } := by
  refine ⟨?_, drain_sentinel_step useMp pgo views rest s hlt⟩
  simp [processResult, h0, hres]

/-- Witness for C3 at the empty-stdout child. -/
theorem c3_no_result_sentinel_and_stop_witness :
    ((0 : Int) = 0 ∧ (splitOut "").2 = "" ∧ orchInit.finished < 1)
    ∧ (processResult "a" ⟨0, "", ""⟩ = (Msg.sentinel, true)
      ∧ drain 1 false [ChanEvent.chmsg Msg.sentinel []] orchInit
          = drain 1 false [] { orchInit with finished := orchInit.finished + 1 }) :=
  ⟨⟨rfl, rfl, by decide⟩,
    c3_no_result_sentinel_and_stop "a" ⟨0, "", ""⟩ 1 false [] [] orchInit rfl rfl
      (by decide)⟩

/-- C7: once the Work Queue is marked interrupted, `next` signals
exhaustion (`StopIteration`, modelled as `none`) no matter how many
unclaimed Units remain, so no further Unit is ever handed out; and since
`next` mutates nothing, every future call sees the same interrupted
iterator. -/
theorem c7_interrupted_next_none (it : MultiprocessIterator)
    (h : it.interrupted = true) : MultiprocessIterator.next it = none := by
  simp [MultiprocessIterator.next, h]

/-- Witness for C7: an interrupted iterator with two Units remaining. -/
theorem c7_interrupted_next_none_witness :
    (⟨true, ["a", "b"]⟩ : MultiprocessIterator).interrupted = true
    ∧ MultiprocessIterator.next ⟨true, ["a", "b"]⟩ = none :=
  ⟨rfl, c7_interrupted_next_none ⟨true, ["a", "b"]⟩ rfl⟩

/-- Counterexample for C5: one Worker, Units `["a", "b"]`, the child for
`"a"` reports the INTERRUPTED record with a clean exit.  After publishing
the INTERRUPTED Outcome the Worker's `_runtest` returned `False`, its
loop continued, and the third step shows it claiming `"b"` — a further
Unit claimed after the INTERRUPTED Outcome was published. -/
theorem c5_interrupted_counterexample :
    runSystem interruptChild ["a", "b"] 1 [0, 0, 0]
      = ⟨⟨false, []⟩, [.publish "b" (interruptChild "b")],
         [Msg.outcome "a" "" "" (INTERRUPTED, .str "")]⟩
    ∧ (processResult "a" (interruptChild "a")).2 = false := by decide

/-- C5 (amended): a Worker that publishes an INTERRUPTED Outcome does not
stop: `_runtest` returns the continue flag (`false`), so the Worker will
ask the Work Queue again; its loop ends only indirectly, once the
Orchestrator has marked the queue interrupted, after which any claim
signals exhaustion. -/
theorem c5_interrupted_worker_continues (t out err : String) (cr : ChildResult)
    (res : Int × RValue) (b : Bool)
    (h : processResult t cr = (Msg.outcome t out err res, b))
    (hI : res.1 = INTERRUPTED) :
    b = false
    ∧ (∀ it : MultiprocessIterator, it.interrupted = true →
        MultiprocessIterator.next it = none) := by
  have hsnd := congrArg Prod.snd h
  have hfst := congrArg Prod.fst h
  simp only at hsnd hfst
  refine ⟨?_, fun it hit => by simp [MultiprocessIterator.next, hit]⟩
  by_cases hrc : cr.retcode = 0
  · by_cases hres : (splitOut cr.stdout).2 = ""
    · exfalso
      have hs : (processResult t cr).1 = Msg.sentinel := by
        simp [processResult, hrc, hres]
      rw [hfst] at hs
      exact Msg.noConfusion hs
    · cases hd : decodeResult (splitOut cr.stdout).2 with
      | none =>
        exfalso
        have hs : (processResult t cr).1 = Msg.sentinel := by
          simp [processResult, hrc, hres, hd]
        rw [hfst] at hs
        exact Msg.noConfusion hs
      | some r =>
        have hs : (processResult t cr).2 = false := by
          simp [processResult, hrc, hres, hd]
        rw [hsnd] at hs
        exact hs
  · exfalso
    have hs : (processResult t cr).1
        = Msg.outcome t (pyRstrip (splitOut cr.stdout).1) (pyRstrip cr.stderr)
            (CHILD_ERROR, .str ("Exit code " ++ (⟨encodeInt cr.retcode⟩ : String))) := by
      simp [processResult, hrc]
    rw [hfst] at hs
    injection hs with e1 e2 e3 e4
    rw [e4] at hI
    have hX : CHILD_ERROR = INTERRUPTED := hI
    exact absurd hX (by decide)

/-- Witness for C5 at the INTERRUPTED-reporting child. -/
theorem c5_interrupted_worker_continues_witness :
    (processResult "a" (interruptChild "a")
        = (Msg.outcome "a" "" "" (INTERRUPTED, .str ""), false)
      ∧ ((INTERRUPTED, RValue.str "") : Int × RValue).1 = INTERRUPTED)
    ∧ ((false : Bool) = false
      ∧ (∀ it : MultiprocessIterator, it.interrupted = true →
          MultiprocessIterator.next it = none)) :=
  ⟨⟨by decide, rfl⟩,
    c5_interrupted_worker_continues "a" "" "" (interruptChild "a")
      (INTERRUPTED, .str "") false (by decide) rfl⟩

/-- Counterexample for C4: a single CHILD_ERROR outcome message.  The
drain loop returns `childError` with the join flag `false`: the raised
`Exception` is not caught by the `except KeyboardInterrupt` handler, so
the Waiting/join section after the `try` block never runs — the error
propagates without waiting for the remaining Worker slots. -/
theorem c4_join_skipped_counterexample :
    drain 1 false
        [ChanEvent.chmsg (Msg.outcome "a" "" "" (CHILD_ERROR, .str "boom")) []]
        orchInit
      = DrainOut.childError "a" (.str "boom")
          ⟨[("a", (CHILD_ERROR, .str "boom"))], 0, 1,
            [OutLine.progress 1 "a" none []]⟩ false := by decide

/-- C4 (amended): on receiving a CHILD_ERROR Outcome the Orchestrator
first records it in the Run Accumulator (the accumulate happens before
the raise), prints the progress line and the child streams, then raises
the run-fatal error carrying the Unit name and diagnostic; the error
propagates immediately with the join flag `false` — the drain loop does
not wait for the remaining Worker slots (joining happens only after
normal completion or an operator interrupt). -/
theorem c4_child_error_recorded_then_raised (useMp : ℕ) (pgo : Bool)
    (t out err : String) (res : Int × RValue) (views : List WorkerView)
    (rest : List ChanEvent) (s : OrchState)
    (hlt : s.finished < useMp) (hC : res.1 = CHILD_ERROR) :
    drain useMp pgo (ChanEvent.chmsg (Msg.outcome t out err res) views :: rest) s
      = DrainOut.childError t res.2
          { s with accumulated := s.accumulated ++ [(t, res)],
                   log := s.log ++ outcomeLog pgo s.testIndex t out err res views }
          false :=
  drain_outcome_childError useMp pgo t out err res views rest s hlt hC

/-- Witness for C4 at a concrete CHILD_ERROR message. -/
theorem c4_child_error_recorded_then_raised_witness :
    (orchInit.finished < 2
      ∧ (((CHILD_ERROR, RValue.str "bad") : Int × RValue).1 = CHILD_ERROR))
    ∧ drain 2 false
        (ChanEvent.chmsg (Msg.outcome "u" "o" "e" (CHILD_ERROR, .str "bad")) [] ::
          [ChanEvent.chmsg Msg.sentinel []])
        orchInit
      = DrainOut.childError "u" (.str "bad")
          { orchInit with
              accumulated := orchInit.accumulated ++ [("u", (CHILD_ERROR, .str "bad"))],
              log := orchInit.log ++
                outcomeLog false orchInit.testIndex "u" "o" "e" (CHILD_ERROR, .str "bad") [] }
          false :=
  ⟨⟨by decide, rfl⟩,
    c4_child_error_recorded_then_raised 2 false "u" "o" "e" (CHILD_ERROR, .str "bad")
      [] [ChanEvent.chmsg Msg.sentinel []] orchInit (by decide) rfl⟩

/-- C9: when the bounded wait times out with no message, the drain loop
only appends the `running:` liveness line (present exactly when some
Worker passes the slow-test threshold filter of `get_running` and PGO
mode is off) and resumes waiting; the Run Accumulator, the finished-slot
counter and the test index of the resumed state are unchanged. -/
theorem c9_timeout_is_pure_probe (useMp : ℕ) (pgo : Bool)
    (views : List WorkerView) (rest : List ChanEvent) (s : OrchState)
    (hlt : s.finished < useMp) :
    drain useMp pgo (ChanEvent.timeout views :: rest) s
      = drain useMp pgo rest { s with log := s.log ++ probeLog pgo views }
    ∧ ({ s with log := s.log ++ probeLog pgo views } : OrchState).accumulated
        = s.accumulated
    ∧ ({ s with log := s.log ++ probeLog pgo views } : OrchState).finished = s.finished
    ∧ ({ s with log := s.log ++ probeLog pgo views } : OrchState).testIndex = s.testIndex
    ∧ probeLog pgo views
        = (if (get_running views).isEmpty || pgo then []
           else [OutLine.running (get_running views)]) :=
  ⟨drain_timeout_step useMp pgo views rest s hlt, rfl, rfl, rfl, rfl⟩

/-- Witness for C9: one slow worker (31 seconds on Unit `"a"`). -/
theorem c9_timeout_is_pure_probe_witness :
    orchInit.finished < 1
    ∧ (drain 1 false [ChanEvent.timeout [⟨some "a", 31⟩]] orchInit
        = drain 1 false []
            { orchInit with log := orchInit.log ++ probeLog false [⟨some "a", 31⟩] }
      ∧ ({ orchInit with log := orchInit.log ++ probeLog false [⟨some "a", 31⟩] } :
            OrchState).accumulated = orchInit.accumulated
      ∧ ({ orchInit with log := orchInit.log ++ probeLog false [⟨some "a", 31⟩] } :
            OrchState).finished = orchInit.finished
      ∧ ({ orchInit with log := orchInit.log ++ probeLog false [⟨some "a", 31⟩] } :
            OrchState).testIndex = orchInit.testIndex
      ∧ probeLog false [⟨some "a", 31⟩]
          = (if (get_running [⟨some "a", 31⟩]).isEmpty || false then []
             else [OutLine.running (get_running [⟨some "a", 31⟩])])) :=
  ⟨by decide, c9_timeout_is_pure_probe 1 false [⟨some "a", 31⟩] [] orchInit (by decide)⟩

theorem rstripL_concat_space (l : List Char) (c : Char) (h : pyIsSpace c = true) :
    rstripL (l ++ [c]) = rstripL l := by
  simp [rstripL, List.reverse_append, List.dropWhile_cons, h]

theorem splitOut_before_failed_record (pre : String) :
    splitOut (pre ++ "\n[0, 1.23]\n") = (pyLstrip pre, "[0, 1.23]") := by
  have hdata : (pre ++ "\n[0, 1.23]\n").data
      = pre.data ++ ('\n' :: ("[0, 1.23]".data ++ ['\n'])) := rfl
  simp only [splitOut, hdata]
  by_cases hnil : lstripL pre.data = []
  · have h1 : stripL (pre.data ++ ('\n' :: ("[0, 1.23]".data ++ ['\n'])))
        = "[0, 1.23]".data := by
      rw [stripL, lstripL_append_of_nil _ _ hnil]
      decide
    rw [h1, rpartNlL_no_nl _ (by decide)]
    rw [pyLstrip, hnil]
  · have h2 : rstripL ('\n' :: ("[0, 1.23]".data ++ ['\n']))
        = '\n' :: "[0, 1.23]".data := by decide
    have h1 : stripL (pre.data ++ ('\n' :: ("[0, 1.23]".data ++ ['\n'])))
        = lstripL pre.data ++ ('\n' :: "[0, 1.23]".data) := by
      rw [stripL, lstripL_append_of_ne_nil _ _ hnil,
        rstripL_append _ _ (by rw [h2]; simp), h2]
    rw [h1, rpartNlL_append _ _ (by decide)]
    rfl

/-- Counterexample for C6: the child exits 0, its last stdout line decodes
to the FAILED record with duration 1.23, but the preceding line `"  x"`
is forwarded as `"x"` — `strip()` removed its leading whitespace, so the
preceding lines are not forwarded unaltered. -/
theorem c6_unaltered_counterexample :
    processResult "t" ⟨0, "  x\n[0, 1.23]\n", ""⟩
      = (Msg.outcome "t" "x" "" (FAILED, .num ⟨123, 2⟩), false)
    ∧ ("x" : String) ≠ "  x" := by decide

/-- C6 (amended): for every child exiting 0 whose stdout is any prefix
block followed by the record line `[0, 1.23]`, the published Outcome is
FAILED with duration 1.23 and the Worker continues; the preceding stdout
is forwarded with its leading and trailing whitespace stripped (the
result split strips the whole stdout and right-strips the prefix), its
interior unaltered. -/
theorem c6_failed_record_duration (t err pre : String) :
    processResult t ⟨0, pre ++ "\n[0, 1.23]\n", err⟩
      = (Msg.outcome t (pyRstrip (pyLstrip pre)) (pyRstrip err)
          (FAILED, .num ⟨123, 2⟩), false) := by
  have hs := splitOut_before_failed_record pre
  have hd : decodeResult "[0, 1.23]" = some (FAILED, .num ⟨123, 2⟩) := by decide
  have hne : ("[0, 1.23]" : String) ≠ "" := by decide
  simp [processResult, hs, hd, hne]

/-- Counterexample for C8: the result record the child entry point writes
on a KeyboardInterrupt is `(INTERRUPTED, '')` — the second field is the
empty string, not a numeric duration — and on any other uncaught
exception the second field is the exception text; so the duration field
is not numeric for every kind. -/
theorem c8_payload_not_numeric_counterexample :
    slaveResult (.exec .keyboardInterrupt) = (INTERRUPTED, .str "")
    ∧ (slaveResult (.exec .keyboardInterrupt)).2.isNum = false
    ∧ (slaveResult (.harnessError "boom")).2.isNum = false := by decide

/-- C8 (amended): every result record pairs exactly one of the seven kind
codes with a second field; for every Unit Executor outcome other than
KeyboardInterrupt that field is a numeric duration (0.0 when not
measured), while the child entry point's INTERRUPTED record carries the
empty string and its CHILD_ERROR record carries the diagnostic string in
place of a duration. -/
theorem c8_record_kinds_and_payloads (ev : SlaveEvent) :
    (slaveResult ev).1 ∈ ([PASSED, FAILED, ENV_CHANGED, SKIPPED, RESOURCE_DENIED,
        INTERRUPTED, CHILD_ERROR] : List Int)
    ∧ (∀ e : ExecEvent, ev = .exec e → e ≠ .keyboardInterrupt →
        ∃ d : DecNum, (slaveResult ev).2 = .num d)
    ∧ (ev = .exec .keyboardInterrupt → slaveResult ev = (INTERRUPTED, .str ""))
    ∧ (∀ m : String, ev = .harnessError m → slaveResult ev = (CHILD_ERROR, .str m)) := by
  refine ⟨?_, ?_, ?_, ?_⟩
  · cases ev with
    | exec e =>
      cases e with
      | resourceDenied => decide
      | skipTest => decide
      | keyboardInterrupt => decide
      | testFailed => decide
      | otherCrash => decide
      | completes d rl env =>
        cases rl <;> cases env <;> simp [slaveResult, runtest_inner] <;> decide
    | harnessError m =>
      simp only [slaveResult]
      decide
  · intro e he hki
    subst he
    cases e with
    | resourceDenied => exact ⟨⟨0, 1⟩, rfl⟩
    | skipTest => exact ⟨⟨0, 1⟩, rfl⟩
    | keyboardInterrupt => exact absurd rfl hki
    | testFailed => exact ⟨⟨0, 1⟩, rfl⟩
    | otherCrash => exact ⟨⟨0, 1⟩, rfl⟩
    | completes d rl env =>
      cases rl <;> cases env <;> exact ⟨d, rfl⟩
  · intro h; subst h; rfl
  · intro m h; subst h; rfl

/-- Witness for C8 at a completed run of half a second. -/
theorem c8_record_kinds_and_payloads_witness :
    (slaveResult (.exec (.completes ⟨5, 1⟩ false false))).1
      ∈ ([PASSED, FAILED, ENV_CHANGED, SKIPPED, RESOURCE_DENIED,
          INTERRUPTED, CHILD_ERROR] : List Int)
    ∧ ∃ d : DecNum, (slaveResult (.exec (.completes ⟨5, 1⟩ false false))).2 = .num d :=
  ⟨(c8_record_kinds_and_payloads (.exec (.completes ⟨5, 1⟩ false false))).1,
    (c8_record_kinds_and_payloads (.exec (.completes ⟨5, 1⟩ false false))).2.1
      (.completes ⟨5, 1⟩ false false) rfl (by decide)⟩

theorem digChar_ne_nl (k : ℕ) : digChar k ≠ '\n' := by
  rw [digChar]
  split_ifs <;> decide

theorem mem_natDigitsAux (fuel : ℕ) :
    ∀ (n : ℕ) (c : Char), c ∈ natDigitsAux fuel n → ∃ k, c = digChar k := by
  induction fuel with
  | zero => intro n c h; simp [natDigitsAux] at h
  | succ f ih =>
    intro n c h
    rw [natDigitsAux] at h
    by_cases hn : n = 0
    · rw [if_pos hn] at h; simp at h
    · rw [if_neg hn] at h
      rcases List.mem_append.mp h with h1 | h2
      · exact ih _ _ h1
      · exact ⟨n % 10, List.mem_singleton.mp h2⟩

theorem nl_not_mem_natDigits (n : ℕ) : '\n' ∉ natDigits n := by
  intro hc
  rw [natDigits] at hc
  split_ifs at hc with h
  · simp at hc
  · obtain ⟨k, hk⟩ := mem_natDigitsAux n n _ hc
    exact digChar_ne_nl k hk.symm

theorem nl_not_mem_encodeInt (i : Int) : '\n' ∉ encodeInt i := by
  intro hc
  rw [encodeInt] at hc
  rcases List.mem_append.mp hc with h1 | h2
  · split_ifs at h1 <;> simp at h1
  · exact nl_not_mem_natDigits _ h2

theorem nl_not_mem_encodeDecNumL (d : DecNum) : '\n' ∉ encodeDecNumL d := by
  intro hc
  simp only [encodeDecNumL] at hc
  set DS := (if (natDigits d.mant.natAbs).length ≤ d.scale
      then List.replicate (d.scale + 1 - (natDigits d.mant.natAbs).length) '0'
        ++ natDigits d.mant.natAbs
      else natDigits d.mant.natAbs) with hDS
  have hds : '\n' ∉ DS := by
    intro hcm
    rw [hDS] at hcm
    split_ifs at hcm with h
    · rcases List.mem_append.mp hcm with h1 | h2
      · have := List.eq_of_mem_replicate h1
        simp at this
      · exact nl_not_mem_natDigits _ h2
    · exact nl_not_mem_natDigits _ hcm
  rcases List.mem_append.mp hc with h1 | h2
  · split_ifs at h1 <;> simp at h1
  · split_ifs at h2 with h3
    · exact hds h2
    · rcases List.mem_append.mp h2 with h4 | h5
      · exact hds (List.mem_of_mem_take h4)
      · rcases List.mem_cons.mp h5 with h6 | h7
        · simp at h6
        · exact hds (List.mem_of_mem_drop h7)

theorem nl_not_mem_escapeL (l : List Char) : '\n' ∉ escapeL l := by
  intro hc
  rw [escapeL] at hc
  obtain ⟨a, _, hmem⟩ := List.mem_flatMap.mp hc
  rw [escapeChar] at hmem
  split_ifs at hmem with h1 h2 h3 h4 h5
  · simp at hmem
  · simp at hmem
  · simp at hmem
  · simp at hmem
  · simp at hmem
  · rw [List.mem_singleton] at hmem
    exact h3 hmem.symm

theorem nl_not_mem_encodeRValueL (v : RValue) : '\n' ∉ encodeRValueL v := by
  intro hc
  cases v with
  | num d => exact nl_not_mem_encodeDecNumL d hc
  | str s =>
    rw [encodeRValueL] at hc
    rcases List.mem_cons.mp hc with h1 | h2
    · simp at h1
    · rcases List.mem_append.mp h2 with h3 | h4
      · exact nl_not_mem_escapeL _ h3
      · simp at h4

theorem nl_not_mem_encodeResultL (r : Int × RValue) : '\n' ∉ encodeResultL r := by
  intro hc
  rw [encodeResultL] at hc
  rcases List.mem_cons.mp hc with h1 | h2
  · simp at h1
  · rcases List.mem_append.mp h2 with h3 | h4
    · exact nl_not_mem_encodeInt _ h3
    · rcases List.mem_cons.mp h4 with h5 | h6
      · simp at h5
      · rcases List.mem_cons.mp h6 with h7 | h8
        · simp at h7
        · rcases List.mem_append.mp h8 with h9 | h10
          · exact nl_not_mem_encodeRValueL _ h9
          · simp at h10

theorem parseStrBody_escape :
    ∀ (l rest : List Char), parseStrBody (escapeL l ++ '"' :: rest) = some (l, rest) := by
  intro l
  induction l with
  | nil =>
    intro rest
    have he : escapeL [] ++ '"' :: rest = '"' :: rest := by simp [escapeL]
    rw [he, parseStrBody.eq_def]
    simp
  | cons c tl ih =>
    intro rest
    have hflat : escapeL (c :: tl) = escapeChar c ++ escapeL tl := by
      simp [escapeL]
    rw [hflat, List.append_assoc]
    by_cases h1 : c = '"'
    · subst h1
      rw [escapeChar]
      simp only [if_pos rfl, List.cons_append]
      rw [parseStrBody.eq_def]
      simp [unescape, ih]
    · by_cases h2 : c = '\\'
      · subst h2
        rw [escapeChar]
        norm_num
        rw [parseStrBody.eq_def]
        simp [unescape, ih]
      · by_cases h3 : c = '\n'
        · subst h3
          rw [escapeChar]
          norm_num
          rw [parseStrBody.eq_def]
          simp [unescape, ih]
        · by_cases h4 : c = '\t'
          · subst h4
            rw [escapeChar]
            norm_num
            rw [parseStrBody.eq_def]
            simp [unescape, ih]
          · by_cases h5 : c = '\r'
            · subst h5
              rw [escapeChar]
              norm_num
              rw [parseStrBody.eq_def]
              simp [unescape, ih]
            · rw [escapeChar, if_neg h1, if_neg h2, if_neg h3, if_neg h4, if_neg h5]
              rw [List.singleton_append, parseStrBody.eq_def]
              simp [h1, h2, ih]

theorem encodeResultL_shape (r : Int × RValue) :
    encodeResultL r = ('[' :: (encodeInt r.1 ++ ',' :: ' ' :: encodeRValueL r.2)) ++ [']'] := by
  simp [encodeResultL]

theorem rstripL_encodeResultL (r : Int × RValue) :
    rstripL (encodeResultL r) = encodeResultL r := by
  rw [encodeResultL_shape]
  exact rstripL_concat_nonspace _ _ (by decide)

theorem encodeResultL_ne_nil (r : Int × RValue) : encodeResultL r ≠ [] := by
  rw [encodeResultL]
  simp

theorem slave_record_is_last_line (priorOut : String) (r : Int × RValue) :
    (rpartNlL (stripL (priorOut ++ "\n" ++ encodeResult r ++ "\n").data)).2
      = encodeResultL r := by
  have hone : ∀ a b : String, (a ++ b).data = a.data ++ b.data := fun a b => rfl
  have hdata : (priorOut ++ "\n" ++ encodeResult r ++ "\n").data
      = priorOut.data ++ ('\n' :: (encodeResultL r ++ ['\n'])) := by
    rw [hone, hone, hone]
    have h2 : ("\n" : String).data = ['\n'] := rfl
    have h3 : (encodeResult r).data = encodeResultL r := rfl
    rw [h2, h3]
    simp [List.append_assoc]
  rw [hdata]
  by_cases hnil : lstripL priorOut.data = []
  · have h2 : lstripL ('\n' :: (encodeResultL r ++ ['\n'])) = encodeResultL r ++ ['\n'] := by
      rw [lstripL, List.dropWhile_cons, if_pos (by decide)]
      rw [encodeResultL, List.cons_append, List.dropWhile_cons, if_neg (by decide)]
    have h1 : stripL (priorOut.data ++ ('\n' :: (encodeResultL r ++ ['\n'])))
        = encodeResultL r := by
      rw [stripL, lstripL_append_of_nil _ _ hnil, h2,
        rstripL_concat_space _ _ (by decide), rstripL_encodeResultL]
    rw [h1, rpartNlL_no_nl _ (nl_not_mem_encodeResultL r)]
  · have h2 : rstripL ('\n' :: (encodeResultL r ++ ['\n'])) = '\n' :: encodeResultL r := by
      have hre : ('\n' :: (encodeResultL r ++ ['\n']))
          = ('\n' :: encodeResultL r) ++ ['\n'] := by simp
      rw [hre, rstripL_concat_space _ _ (by decide)]
      have h3 : ('\n' :: encodeResultL r) = ['\n'] ++ encodeResultL r := rfl
      rw [h3, rstripL_append _ _
        (by rw [rstripL_encodeResultL]; exact encodeResultL_ne_nil r),
        rstripL_encodeResultL]
    have h1 : stripL (priorOut.data ++ ('\n' :: (encodeResultL r ++ ['\n'])))
        = lstripL priorOut.data ++ ('\n' :: encodeResultL r) := by
      rw [stripL, lstripL_append_of_ne_nil _ _ hnil,
        rstripL_append _ _ (by rw [h2]; simp), h2]
    rw [h1, rpartNlL_append _ _ (nl_not_mem_encodeResultL r)]

theorem decodeResult_child_error_record (m : String) :
    decodeResult (encodeResult (CHILD_ERROR, .str m)) = some (CHILD_ERROR, .str m) := by
  have hdata : encodeResultL (CHILD_ERROR, RValue.str m)
      = '[' :: '-' :: '5' :: ',' :: ' ' :: '"' :: (escapeL m.data ++ '"' :: [']']) := by
    rw [encodeResultL]
    have h1 : encodeInt CHILD_ERROR = ['-', '5'] := by decide
    rw [h1, encodeRValueL]
    simp
  have hstr : encodeResult (CHILD_ERROR, RValue.str m)
      = ⟨'[' :: '-' :: '5' :: ',' :: ' ' :: '"' :: (escapeL m.data ++ '"' :: [']'])⟩ :=
    congrArg String.mk hdata
  rw [hstr, decodeResult]
  have hdig : Char.isDigit ',' = false := rfl
  have h5 : Char.isDigit '5' = true := rfl
  have hpd : parseDigits ('5' :: ',' :: ' ' :: '"' :: (escapeL m.data ++ '"' :: [']']))
      = some (5, ',' :: ' ' :: '"' :: (escapeL m.data ++ '"' :: [']'])) := by
    rw [parseDigits.eq_def]
    simp [List.takeWhile_cons, List.dropWhile_cons, h5, hdig]
    rfl
  have hpi : parseInt ('-' :: '5' :: ',' :: ' ' :: '"' :: (escapeL m.data ++ '"' :: [']']))
      = some (-5, ',' :: ' ' :: '"' :: (escapeL m.data ++ '"' :: [']'])) := by
    rw [parseInt.eq_def]
    simp [hpd]
  simp only [hpi]
  have hrv : parseRval ('"' :: (escapeL m.data ++ '"' :: [']']))
      = some (.str m, [']']) := by
    rw [parseRval.eq_def]
    simp [parseStrBody_escape m.data [']']]
  simp [hrv]
  rfl

/-- C10: the child entry point always exits with status 0 and the result
split of the Worker always finds the JSON record as the last line of its
stdout, for every Unit Executor outcome; a KeyboardInterrupt is encoded
as INTERRUPTED and any other uncaught exception as CHILD_ERROR with the
exception text, and in the latter case feeding the child's exit status
and stdout to the Worker publishes the CHILD_ERROR Outcome through the
clean-exit parsed-record path with the continue flag — not through the
nonzero-exit path. -/
theorem c10_slave_clean_exit_and_record (priorOut : String) (ev : SlaveEvent) :
    (run_tests_slave priorOut ev).retcode = 0
    ∧ (splitOut (run_tests_slave priorOut ev).stdout).2 = encodeResult (slaveResult ev)
    ∧ (ev = .exec .keyboardInterrupt → slaveResult ev = (INTERRUPTED, .str ""))
    ∧ (∀ m : String, ev = .harnessError m → slaveResult ev = (CHILD_ERROR, .str m)
        ∧ ∀ t st : String,
            processResult t ⟨0, (run_tests_slave priorOut ev).stdout, st⟩
              = (Msg.outcome t
                  (pyRstrip (splitOut (run_tests_slave priorOut ev).stdout).1)
                  (pyRstrip st) (CHILD_ERROR, .str m), false)) := by
  refine ⟨rfl, ?_, ?_, ?_⟩
  · exact congrArg String.mk (slave_record_is_last_line priorOut (slaveResult ev))
  · intro h; subst h; rfl
  · intro m h
    subst h
    refine ⟨rfl, ?_⟩
    intro t st
    have hs2 : (splitOut (run_tests_slave priorOut (.harnessError m)).stdout).2
        = encodeResult (CHILD_ERROR, .str m) :=
      congrArg String.mk
        (slave_record_is_last_line priorOut (slaveResult (.harnessError m)))
    have hd : decodeResult (splitOut (run_tests_slave priorOut (.harnessError m)).stdout).2
        = some (CHILD_ERROR, .str m) := by
      rw [hs2]
      exact decodeResult_child_error_record m
    have hne : (splitOut (run_tests_slave priorOut (.harnessError m)).stdout).2 ≠ "" := by
      rw [hs2]
      intro hc
      exact encodeResultL_ne_nil _ (congrArg String.data hc)
    simp [processResult, hne, hd]

/-- Witness for C10: an uncaught harness exception with text `"boom"`. -/
theorem c10_slave_clean_exit_and_record_witness :
    (run_tests_slave "x" (.harnessError "boom")).retcode = 0
    ∧ slaveResult (.harnessError "boom") = (CHILD_ERROR, .str "boom")
    ∧ (processResult "t" ⟨0, (run_tests_slave "x" (.harnessError "boom")).stdout, "e"⟩).2
        = false :=
  ⟨(c10_slave_clean_exit_and_record "x" (.harnessError "boom")).1,
   ((c10_slave_clean_exit_and_record "x" (.harnessError "boom")).2.2.2 "boom" rfl).1,
   by rw [((c10_slave_clean_exit_and_record "x"
       (.harnessError "boom")).2.2.2 "boom" rfl).2 "t" "e"]⟩
